import Mathlib

/-!
Shallow embedding of `job_bot.py`: a job-scraping script with two extractors
(NHS and HealthJobsUK), a keyword filter, a persisted seen-set, and a Telegram
notifier.  HTTP transport, HTML parsing and the filesystem are external
collaborators; they are modelled as explicit environments (functions from URLs
to optional parsed pages, an abstract file state), while every piece of logic
of the script itself is translated function by function.
-/

/-- Python's `needle in haystack` on strings needs a prefix test on character
lists: `leadsWith n h` is true iff `h` starts with `n`. -/
def leadsWith : List Char → List Char → Bool
  | [], _ => true
  | _ :: _, [] => false
  | a :: as, b :: bs => a == b && leadsWith as bs

/-- Python's substring containment `needle in haystack` (on character lists):
true iff `needle` occurs contiguously inside `haystack`. -/
def containsSub (needle : List Char) : List Char → Bool
  | [] => leadsWith needle []
  | c :: rest => leadsWith needle (c :: rest) || containsSub needle rest

/-- `strHas hay needle` models Python's `needle in hay` on strings. -/
def strHas (hay needle : String) : Bool := containsSub needle.data hay.data

/-- ASCII lower-casing of one character, modelling `str.lower()` (all keyword
matching in the script is over ASCII text). -/
def lowerChar (c : Char) : Char :=
  if 'A' ≤ c ∧ c ≤ 'Z' then Char.ofNat (c.toNat + 32) else c

/-- `str.lower()` on a string, character-wise ASCII lowering. -/
def strLower (s : String) : String := String.mk (s.data.map lowerChar)

/-- `KEYWORDS` from `job_bot.py` lines 16-36: junior-doctor-grade role names. -/
def KEYWORDS : List String :=
  [ "junior clinical fellow"
  , "junior doctor"
  , "sho"
  , "senior house officer"
  , "f1"
  , "foundation year 1"
  , "f2"
  , "foundation year 2"
  , "f3"
  , "foundation year 3"
  , "ct1"
  , "core trainee 1"
  , "ct2"
  , "core trainee 2"
  , "st1"
  , "specialty trainee 1"
  , "st2"
  , "specialty trainee 2"
  , "trust grade"
  ]

/-- The keyword filter applied to a link's visible text:
`any(k in text.lower() for k in KEYWORDS)` (lines 194-195 and 267-268). -/
def keywordMatches (text : String) : Bool :=
  KEYWORDS.any (fun k => strHas (strLower text) k)

/-!
## HTML documents

A parsed page is modelled as the flat list of its elements in document order;
the relevant elements of the detail pages the script scrapes are siblings, so
`find` is a first-match search over the list and `find_next_siblings()` is the
remaining suffix.  `name` is the tag name, `text` is `get_text(strip=True)`,
and `strings` lists the (stripped) text nodes contained in the element, used
by the HealthJobsUK label lookup.
-/

structure Element where
  name : String
  text : String
  strings : List String := []
deriving DecidableEq, Repr

/-- The fields the script assembles for one job (the Python dict built at
lines 156-163 and 239-246). -/
structure JobRecord where
  source : String
  title : String
  employer : String
  specialty : String
  salary : String
  location : String
deriving DecidableEq, Repr

/-- The seen-set mapping: `{"nhs": [...], "healthjobsuk": [...]}`. -/
structure Seen where
  nhs : List String
  healthjobsuk : List String
deriving DecidableEq, Repr

/-- `soup.find(pred)` followed by `find_next_siblings()`: the suffix of the
document after the first element satisfying `p`, or `none` when no element
does. -/
def siblingsAfterFirst (p : Element → Bool) : List Element → Option (List Element)
  | [] => none
  | e :: rest => if p e then some rest else siblingsAfterFirst p rest

/-- The sibling walk used for employer/salary/specialty (lines 109-115,
120-126, 131-137): stop at the next element whose tag is in `stop`; otherwise
return the first non-empty stripped text. -/
def scanField (stop : List String) : List Element → Option String
  | [] => none
  | e :: rest =>
    if e.name ∈ stop then none
    else if e.text ≠ "" then some e.text
    else scanField stop rest

/-- The heading search predicate `lambda tag: tag.name in fam and label in
tag.get_text()` (lines 107, 118, 129, 140). -/
def headingMatch (fam : List String) (label : String) (e : Element) : Bool :=
  decide (e.name ∈ fam) && strHas e.text label

/-- One NHS field: find the first heading whose tag is in `fam` and whose text
contains `label`, then scan its following siblings (stopping at `stop` tags);
`none` when the heading is absent or no non-empty text precedes the stop. -/
def nhsField (doc : List Element) (fam : List String) (label : String)
    (stop : List String) : Option String :=
  match siblingsAfterFirst (headingMatch fam label) doc with
  | none => none
  | some sibs => scanField stop sibs

/-- The location fragment collection loop (lines 142-150): walk siblings,
break at an h2/h3, collect non-empty texts, break once four are collected. -/
def collectLocParts (acc : List String) : List Element → List String
  | [] => acc
  | e :: rest =>
    if e.name ∈ ["h2", "h3"] then acc
    else
      let acc2 := if e.text ≠ "" then acc ++ [e.text] else acc
      if 4 ≤ acc2.length then acc2 else collectLocParts acc2 rest

/-- The location rule (lines 151-154): with at least two fragments, the last
two joined by ", "; with one, that fragment; with none, "Not specified". -/
def locFromParts (parts : List String) : String :=
  match parts.reverse with
  | [] => "Not specified"
  | [p] => p
  | last :: prev :: _ => prev ++ ", " ++ last

/-- NHS location extraction (lines 139-154). -/
def nhsLocation (doc : List Element) : String :=
  match siblingsAfterFirst (headingMatch ["h2", "h3"] "Job locations") doc with
  | none => "Not specified"
  | some sibs => locFromParts (collectLocParts [] sibs)

/-- Declarative reading of the fragment loop, for the statement of the
location rule: the non-empty stripped texts of the siblings strictly before
the first h2/h3, capped at four. -/
def locFragments (sibs : List Element) : List String :=
  (((sibs.takeWhile fun e => !decide (e.name ∈ ["h2", "h3"])).map
    Element.text).filter fun t => !(t == "")).take 4

/-- `parse_nhs_job_details` (lines 94-163) applied to an already fetched and
parsed detail page; the fetch itself is part of the environment, and when it
fails the Python function returns `None` before reaching this code. -/
def parse_nhs_doc (doc : List Element) : JobRecord :=
  { source := "NHS"
  , title :=
      match doc.find? (fun e => e.name == "h1") with
      | some h => h.text
      | none => "No title"
  , employer := (nhsField doc ["h2", "h3"] "Employer name" ["h2", "h3"]).getD "Not specified"
  , specialty := (nhsField doc ["h3", "h4"] "Main area" ["h2", "h3", "h4"]).getD "Not specified"
  , salary := (nhsField doc ["h3", "h4"] "Salary" ["h2", "h3", "h4"]).getD "Not specified"
  , location := nhsLocation doc }

/-- `soup.find(string=...)` for the HealthJobsUK lookup: the suffix after the
first element containing a text node equal to `label` (the found node's
parent), or `none`. -/
def siblingsAfterLabel (label : String) : List Element → Option (List Element)
  | [] => none
  | e :: rest => if label ∈ e.strings then some rest else siblingsAfterLabel label rest

/-- First non-empty stripped sibling text, with no heading stopping rule
(the loop of lines 214-218). -/
def firstNonEmptyText : List Element → Option String
  | [] => none
  | e :: rest => if e.text ≠ "" then some e.text else firstNonEmptyText rest

/-- `parse_trac_label` (lines 209-218). -/
def parse_trac_label (doc : List Element) (label : String) : Option String :=
  match siblingsAfterLabel label doc with
  | none => none
  | some sibs => firstNonEmptyText sibs

/-- `parse_healthjobsuk_job_details` (lines 221-246) applied to an already
fetched and parsed detail page. -/
def parse_hjuk_doc (doc : List Element) : JobRecord :=
  { source := "HealthJobsUK"
  , title :=
      match doc.find? (fun e => e.name == "h1") with
      | some h => h.text
      | none =>
        match doc.find? (fun e => e.name == "h2") with
        | some h => h.text
        | none => "No title"
  , employer := (parse_trac_label doc "Employer").getD "Not specified"
  , specialty := (parse_trac_label doc "Main area").getD "Not specified"
  , salary := (parse_trac_label doc "Salary").getD "Not specified"
  , location := (parse_trac_label doc "Town").getD "Not specified" }

/-!
## Job identifier extraction
-/

/-- `re.search(r"/candidate/jobadvert/([^/?]+)", href)` (line 186): the
leftmost position where the literal path marker is followed by at least one
character other than `/` and `?`; the capture is the maximal run of such
characters. -/
def nhsIdScan : List Char → Option (List Char)
  | [] => none
  | c :: rest =>
    if leadsWith "/candidate/jobadvert/".data (c :: rest) then
      let after := (c :: rest).drop "/candidate/jobadvert/".length
      let idc := after.takeWhile (fun ch => !(ch == '/' || ch == '?'))
      if idc.isEmpty then nhsIdScan rest else some idc
    else nhsIdScan rest

/-- `re.search(r"-v(\d+)", href)` (line 271): at the leftmost occurrence of
`-v` immediately followed by a digit, capture the maximal digit run. -/
def vMatch : List Char → Option (List Char)
  | [] => none
  | c :: rest =>
    match c, rest with
    | '-', 'v' :: d :: rest2 =>
      if d.isDigit then some ((d :: rest2).takeWhile Char.isDigit)
      else vMatch rest
    | _, _ => vMatch rest

/-- HealthJobsUK job identifier (lines 271-272): the captured digits when the
regex matches, otherwise the raw href. -/
def hjukJobId (href : String) : String :=
  match vMatch href.data with
  | some ds => String.mk ds
  | none => href

/-- Modelled from the spec's words for comparison (C3): "the numeric version
suffix after -v in the URL ... when no such -v<digits> suffix exists the
identifier equals the raw URL" — the digit run is required to be a suffix of
the href, preceded by `-v`. -/
def hjukJobIdSpec (href : String) : String :=
  let rev := href.data.reverse
  let ds := rev.takeWhile Char.isDigit
  if ds.isEmpty then href
  else
    match rev.drop ds.length with
    | 'v' :: '-' :: _ => String.mk ds.reverse
    | _ => href

/-!
## Extractors

HTTP responses are the environment: a listing fetch yields the anchors
(`soup.find_all("a", href=True)`, each with its href and visible text) or a
transport/status error; a detail fetch yields the parsed detail document or
`none` on failure (in the script, `parse_nhs_job_details` /
`parse_healthjobsuk_job_details` return `None` exactly when their
`requests.get` + `raise_for_status` raises).  The run is a left fold over the
anchors threading the pair (seen-set, list of new jobs), mirroring the
in-place mutation of `seen` and the growing `new_jobs` list.
-/

structure Anchor where
  href : String
  text : String
deriving DecidableEq, Repr

/-- The fixed NHS search URLs (lines 38-41). -/
def NHS_SEARCH_URLS : List String :=
  [ "https://www.jobs.nhs.uk/candidate/search/results?keyword=Junior+clinical+fellow&language=en"
  , "https://www.jobs.nhs.uk/candidate/search/results?keyword=junior+doctor&language=en" ]

def nhsBase : String := "https://www.jobs.nhs.uk"

def hjukSite : String := "https://www.healthjobsuk.com"

def HEALTHJOBSUK_LIST_URL : String := "https://www.healthjobsuk.com/job_list/s2"

/-- Environment of the NHS extractor: responses of the listing URLs and of
every detail URL, fixed for the run. -/
structure NhsEnv where
  listing : String → Except String (List Anchor)
  detail : String → Option (List Element)

/-- Environment of the HealthJobsUK extractor (one fixed listing URL). -/
structure HjukEnv where
  listing : Except String (List Anchor)
  detail : String → Option (List Element)

/-- `full_url` for an NHS anchor (line 185). -/
def nhsFullUrl (a : Anchor) : String :=
  if leadsWith "http".data a.href.data then a.href else nhsBase ++ a.href

/-- The body of the NHS per-anchor loop (lines 180-203): marker check, id
extraction, seen-set check, keyword filter, detail fetch; on success the id is
appended to `seen["nhs"]` and the job to `new_jobs`. -/
def nhsStep (env : NhsEnv) (st : Seen × List (String × JobRecord)) (a : Anchor) :
    Seen × List (String × JobRecord) :=
  if strHas a.href "/candidate/jobadvert/" then
    match nhsIdScan a.href.data with
    | none => st
    | some idc =>
      if String.mk idc ∈ st.1.nhs then st
      else if keywordMatches a.text then
        match env.detail (nhsFullUrl a) with
        | none => st
        | some doc =>
          ({ st.1 with nhs := st.1.nhs ++ [String.mk idc] },
            st.2 ++ [(nhsFullUrl a, parse_nhs_doc doc)])
      else st
  else st

/-- One NHS search URL (lines 170-203): listing fetch failure skips the URL,
success folds the per-anchor step over its anchors. -/
def nhsUrlStep (env : NhsEnv) (st : Seen × List (String × JobRecord)) (url : String) :
    Seen × List (String × JobRecord) :=
  match env.listing url with
  | .error _ => st
  | .ok anchors => anchors.foldl (nhsStep env) st

/-- `fetch_nhs_new_jobs` (lines 166-205), returning the updated seen-set
(mutated in place in Python) together with the list of new jobs. -/
def fetch_nhs_new_jobs (env : NhsEnv) (seen : Seen) : Seen × List (String × JobRecord) :=
  NHS_SEARCH_URLS.foldl (nhsUrlStep env) (seen, [])

/-- The body of the HealthJobsUK per-anchor loop (lines 262-283). -/
def hjukStep (env : HjukEnv) (st : Seen × List (String × JobRecord)) (a : Anchor) :
    Seen × List (String × JobRecord) :=
  if leadsWith "/job/UK/".data a.href.data then
    if keywordMatches a.text then
      if hjukJobId a.href ∈ st.1.healthjobsuk then st
      else
        match env.detail (hjukSite ++ a.href) with
        | none => st
        | some doc =>
          ({ st.1 with healthjobsuk := st.1.healthjobsuk ++ [hjukJobId a.href] },
            st.2 ++ [(hjukSite ++ a.href, parse_hjuk_doc doc)])
    else st
  else st

/-- `fetch_healthjobsuk_new_jobs` (lines 249-285): listing failure returns an
empty result (seen-set untouched), otherwise the per-anchor fold. -/
def fetch_healthjobsuk_new_jobs (env : HjukEnv) (seen : Seen) :
    Seen × List (String × JobRecord) :=
  match env.listing with
  | .error _ => (seen, [])
  | .ok anchors => anchors.foldl (hjukStep env) (seen, [])

/-!
## Seen-set store

The filesystem and JSON codec are external; a file state records whether the
file exists, whether it can be read, and — when readable — whether its bytes
parse, and to which JSON value.
-/

inductive Json where
  | null
  | bool (b : Bool)
  | num (n : Int)
  | str (s : String)
  | arr (xs : List Json)
  | obj (kvs : List (String × Json))

inductive FileState where
  | absent
  | unreadable
  | malformed
  | wellFormed (j : Json)

/-- `os.path.exists(SEEN_FILE)` (line 48). -/
def fileExists : FileState → Bool
  | .absent => false
  | _ => true

/-- `open(...)` followed by `json.load` (lines 50-51): an exception (modelled
as `Except.error`) when the file cannot be opened, read or parsed. -/
def readJson : FileState → Except String Json
  | .absent => .error "FileNotFoundError"
  | .unreadable => .error "OSError"
  | .malformed => .error "JSONDecodeError"
  | .wellFormed j => .ok j

/-- The default seen mapping (line 54). -/
def defaultSeen : Json :=
  .obj [("nhs", .arr []), ("healthjobsuk", .arr [])]

/-- `load_seen` (lines 47-54): return the parsed JSON when the file exists and
parses; any exception inside the `try` falls through to the default.  The
codomain is `Json` (not `Except`): the function returns normally on every file
state. -/
def load_seen (fs : FileState) : Json :=
  if fileExists fs then
    match readJson fs with
    | .ok j => j
    | .error _ => defaultSeen
  else defaultSeen

/-- Python subscription `value[key]` as the extractors use it on the loaded
seen mapping (lines 191 and 274): `KeyError` on an object missing the key,
`TypeError` on a non-object (list indexing by string, or subscription of a
scalar). -/
inductive PyError where
  | keyError
  | typeError
deriving DecidableEq, Repr

def jsonIndex : Json → String → Except PyError Json
  | .obj kvs, k =>
    match kvs.find? (fun kv => kv.1 == k) with
    | some kv => .ok kv.2
    | none => .error .keyError
  | _, _ => .error .typeError

/-!
## Notifier
-/

/-- The process environment the notifier reads (lines 10-11); `none` models an
unset variable, and Python truthiness makes the empty string falsy too. -/
structure TelegramEnv where
  token : Option String
  chatId : Option String

/-- Python falsiness of an optional string: `None` or `""`. -/
def optFalsy : Option String → Bool
  | none => true
  | some s => s == ""

/-- Outcome of the single `requests.post` (line 71): an exception, or a
response with its `ok` flag and body text. -/
inductive PostResult where
  | raised (e : String)
  | response (ok : Bool) (body : String)
deriving DecidableEq, Repr

/-- What `send_telegram` did on its single pass (it never retries). -/
inductive SendOutcome where
  | skippedNoCreds
  | sent
  | loggedError (body : String)
  | loggedException (e : String)
deriving DecidableEq, Repr

/-- `send_telegram` (lines 62-75): missing credentials log and return; the
post is attempted once, a raised exception is caught and logged, a non-ok
response is logged; in every case the function returns normally (the codomain
is `SendOutcome`, with no error case escaping). -/
def send_telegram (env : TelegramEnv) (post : PostResult) : SendOutcome :=
  if optFalsy env.token || optFalsy env.chatId then .skippedNoCreds
  else
    match post with
    | .raised e => .loggedException e
    | .response ok body => if ok then .sent else .loggedError body

/-!
## Derived notions used in the statements
-/

/-- The identifier the NHS loop extracts from an anchor, when the regex
matches. -/
def nhsAnchorId (a : Anchor) : Option String :=
  (nhsIdScan a.href.data).map String.mk

/-- An NHS anchor passes every filter that does not involve the seen-set:
marker present, identifier extracted, keyword match, detail fetch succeeds.
Such an anchor is admitted exactly when its identifier is not yet seen. -/
def nhsEligible (env : NhsEnv) (a : Anchor) : Prop :=
  strHas a.href "/candidate/jobadvert/" = true ∧
  (nhsIdScan a.href.data).isSome = true ∧
  keywordMatches a.text = true ∧
  (env.detail (nhsFullUrl a)).isSome = true

/-- Same for a HealthJobsUK anchor. -/
def hjukEligible (env : HjukEnv) (a : Anchor) : Prop :=
  leadsWith "/job/UK/".data a.href.data = true ∧
  keywordMatches a.text = true ∧
  (env.detail (hjukSite ++ a.href)).isSome = true

/-!
## Test fixtures used by witnesses and sanity checks
-/

def anchorX1 : Anchor := ⟨"/candidate/jobadvert/X1", "Junior doctor post"⟩

def anchorV55 : Anchor := ⟨"/job/UK/role-v55", "SHO in medicine"⟩

def envNhsTest : NhsEnv := ⟨fun _ => .ok [anchorX1], fun _ => some []⟩

def envHjukTest : HjukEnv := ⟨.ok [anchorV55], fun _ => some []⟩

def envNhsDown : NhsEnv := ⟨fun _ => .ok [anchorX1], fun _ => none⟩

def envHjukDown : HjukEnv := ⟨.ok [anchorV55], fun _ => none⟩

/-!
## Theorems
-/

theorem leadsWith_iff (n h : List Char) :
    leadsWith n h = true ↔ ∃ t, h = n ++ t := by
  induction n generalizing h with
  | nil => simp [leadsWith]
  | cons a as ih =>
    cases h with
    | nil => simp [leadsWith]
    | cons b bs =>
      simp only [leadsWith, Bool.and_eq_true, beq_iff_eq, ih, List.cons_append,
        List.cons.injEq]
      constructor
      · rintro ⟨rfl, t, rfl⟩; exact ⟨t, rfl, rfl⟩
      · rintro ⟨t, rfl, rfl⟩; exact ⟨rfl, t, rfl⟩

theorem containsSub_iff (n h : List Char) :
    containsSub n h = true ↔ ∃ p t, h = p ++ n ++ t := by
  induction h with
  | nil =>
    simp only [containsSub, leadsWith_iff]
    constructor
    · rintro ⟨t, ht⟩
      exact ⟨[], t, by simp [← ht]⟩
    · rintro ⟨p, t, ht⟩
      cases p with
      | nil => exact ⟨t, by simpa using ht⟩
      | cons x xs => simp at ht
  | cons c rest ih =>
    simp only [containsSub, Bool.or_eq_true, leadsWith_iff, ih]
    constructor
    · rintro (⟨t, ht⟩ | ⟨p, t, ht⟩)
      · exact ⟨[], t, by simp [ht]⟩
      · exact ⟨c :: p, t, by simp [ht]⟩
    · rintro ⟨p, t, ht⟩
      cases p with
      | nil => exact Or.inl ⟨t, by simpa using ht⟩
      | cons x xs =>
        simp only [List.cons_append, List.cons.injEq] at ht
        exact Or.inr ⟨xs, t, by simp [ht.2]⟩

/-- C7: the keyword filter admits a text iff its lower-cased form contains
some keyword of `KEYWORDS` as a contiguous substring; it admits "Junior
Clinical Fellow in Paediatrics" and rejects "Consultant Cardiologist". -/
theorem keyword_filter_characterisation :
    (∀ text : String, keywordMatches text = true ↔
      ∃ k ∈ KEYWORDS, ∃ p t, (strLower text).data = p ++ k.data ++ t) ∧
    keywordMatches "Junior Clinical Fellow in Paediatrics" = true ∧
    keywordMatches "Consultant Cardiologist" = false := by
  refine ⟨fun text => ?_, by decide, by decide⟩
  rw [keywordMatches, List.any_eq_true]
  constructor
  · rintro ⟨k, hk, hc⟩
    exact ⟨k, hk, (containsSub_iff _ _).1 hc⟩
  · rintro ⟨k, hk, hpt⟩
    exact ⟨k, hk, (containsSub_iff _ _).2 hpt⟩

/-- C4: `load_seen` returns the parsed JSON when the file exists and parses,
and the default mapping `{"nhs": [], "healthjobsuk": []}` when the file is
absent, unreadable or malformed; its codomain is `Json`, so it returns
normally for every file state. -/
theorem load_seen_robust :
    (∀ j, load_seen (.wellFormed j) = j) ∧
    load_seen .absent = defaultSeen ∧
    load_seen .unreadable = defaultSeen ∧
    load_seen .malformed = defaultSeen :=
  ⟨fun _ => rfl, rfl, rfl, rfl⟩

/-- C10: `load_seen` does no shape validation — well-formed JSON that is not
an object with both source keys (an empty object, a JSON array) is returned
verbatim, and the extractors' seen-set subscriptions `seen["nhs"]` /
`seen["healthjobsuk"]` (lines 191 and 274) then raise `KeyError` resp.
`TypeError`, escaping the log-and-continue regime. -/
theorem load_seen_no_shape_validation :
    load_seen (.wellFormed (.obj [])) = .obj [] ∧
    jsonIndex (.obj []) "nhs" = .error .keyError ∧
    jsonIndex (.obj []) "healthjobsuk" = .error .keyError ∧
    load_seen (.wellFormed (.arr [])) = .arr [] ∧
    jsonIndex (.arr []) "nhs" = .error .typeError :=
  ⟨rfl, rfl, rfl, rfl, rfl⟩

/-- C9: `send_telegram` returns a `SendOutcome` in every case — with a falsy
credential it skips; an exception from the single post is caught and logged;
a non-ok response is logged; an ok response is sent.  There is exactly one
post attempt per call (the function consumes one `PostResult`), so there is
no retry, and no case raises. -/
theorem send_telegram_never_raises :
    (∀ env post, (optFalsy env.token || optFalsy env.chatId) = true →
      send_telegram env post = .skippedNoCreds) ∧
    (∀ env e, (optFalsy env.token || optFalsy env.chatId) = false →
      send_telegram env (.raised e) = .loggedException e) ∧
    (∀ env body, (optFalsy env.token || optFalsy env.chatId) = false →
      send_telegram env (.response false body) = .loggedError body) ∧
    (∀ env body, (optFalsy env.token || optFalsy env.chatId) = false →
      send_telegram env (.response true body) = .sent) := by
  refine ⟨fun env post h => ?_, fun env e h => ?_, fun env body h => ?_,
    fun env body h => ?_⟩ <;> simp [send_telegram, h]

theorem siblingsAfterFirst_eq_none (p : Element → Bool) (doc : List Element)
    (h : ∀ e ∈ doc, p e = false) : siblingsAfterFirst p doc = none := by
  induction doc with
  | nil => rfl
  | cons e rest ih =>
    rw [siblingsAfterFirst, if_neg (by simp [h e (by simp)])]
    exact ih fun x hx => h x (by simp [hx])

theorem siblingsAfterFirst_append (p : Element → Bool) (pre : List Element) (hd : Element)
    (rest : List Element) (hpre : ∀ e ∈ pre, p e = false) (hh : p hd = true) :
    siblingsAfterFirst p (pre ++ hd :: rest) = some rest := by
  induction pre with
  | nil => simp [siblingsAfterFirst, hh]
  | cons e pr ih =>
    rw [List.cons_append, siblingsAfterFirst, if_neg (by simp [hpre e (by simp)])]
    exact ih fun x hx => hpre x (by simp [hx])

theorem collectLocParts_eq (sibs : List Element) :
    ∀ acc : List String, acc.length < 4 →
    collectLocParts acc sibs =
      acc ++ ((((sibs.takeWhile fun e => !decide (e.name ∈ ["h2", "h3"])).map
        Element.text).filter fun t => !(t == "")).take (4 - acc.length)) := by
  induction sibs with
  | nil => intro acc h; simp [collectLocParts]
  | cons e rest ih =>
    intro acc hacc
    by_cases he : e.name ∈ ["h2", "h3"]
    · have hp : (!decide (e.name ∈ ["h2", "h3"])) = false := by simp [he]
      rw [collectLocParts, if_pos he]
      simp only [List.takeWhile_cons, hp]
      simp
    · have hp : (!decide (e.name ∈ ["h2", "h3"])) = true := by simp [he]
      rw [collectLocParts, if_neg he]
      simp only [List.takeWhile_cons, hp, if_pos rfl, if_true, List.map_cons, List.filter_cons]
      by_cases ht : e.text = ""
      · have hcond : ¬ (4 ≤ acc.length) := by omega
        have hfilt : (!(e.text == "")) = false := by simp [ht]
        simp only [ht, ne_eq, not_true_eq_false, if_false, if_neg hcond, hfilt]
        exact ih acc hacc
      · have hfilt : (!(e.text == "")) = true := by simp [ht]
        simp only [ne_eq, ht, not_false_eq_true, if_true, hfilt, if_pos rfl]
        by_cases hlen : 4 ≤ acc.length + 1
        · rw [if_pos (by simpa using hlen)]
          have h1 : 4 - acc.length = 1 := by omega
          rw [h1]
          simp
        · rw [if_neg (by simpa using hlen)]
          rw [ih (acc ++ [e.text]) (by simp; omega)]
          have h4 : 4 - acc.length = (4 - (acc ++ [e.text]).length) + 1 := by simp; omega
          rw [h4, List.take_succ_cons]
          simp

/-- C6: on a detail page whose element sequence contains no "Job locations"
h2/h3 heading the location is "Not specified"; and when such a heading is
present (first at some position), the location is determined by the collected
fragments — the non-empty texts of the siblings before the next h2/h3,
capped at four — through the rule of lines 151-154: last two joined by ", ",
a single fragment verbatim, "Not specified" when none. -/
theorem nhs_location_rule :
    (∀ doc, (∀ e ∈ doc, headingMatch ["h2", "h3"] "Job locations" e = false) →
      nhsLocation doc = "Not specified") ∧
    (∀ pre hd sibs, (∀ e ∈ pre, headingMatch ["h2", "h3"] "Job locations" e = false) →
      headingMatch ["h2", "h3"] "Job locations" hd = true →
      nhsLocation (pre ++ hd :: sibs) = locFromParts (locFragments sibs)) := by
  constructor
  · intro doc h
    rw [nhsLocation, siblingsAfterFirst_eq_none _ _ h]
  · intro pre hd sibs hpre hh
    rw [nhsLocation, siblingsAfterFirst_append _ _ _ _ hpre hh]
    show locFromParts (collectLocParts [] sibs) = _
    rw [collectLocParts_eq sibs [] (by decide)]
    rfl

theorem nhs_location_rule_witness :
    nhsLocation [Element.mk "p" "x" []] = "Not specified" ∧
    nhsLocation [Element.mk "h2" "Job locations" [], Element.mk "p" "England" [],
      Element.mk "p" "Leeds" []] = "England, Leeds" :=
  ⟨nhs_location_rule.1 _ (by decide),
   (nhs_location_rule.2 [] (Element.mk "h2" "Job locations" [])
      [Element.mk "p" "England" [], Element.mk "p" "Leeds" []]
      (by decide) (by decide)).trans (by decide)⟩

theorem siblingsAfterLabel_eq_none (label : String) (doc : List Element)
    (h : ∀ e ∈ doc, label ∉ e.strings) : siblingsAfterLabel label doc = none := by
  induction doc with
  | nil => rfl
  | cons e rest ih =>
    rw [siblingsAfterLabel, if_neg (h e (by simp))]
    exact ih fun x hx => h x (by simp [hx])

theorem siblingsAfterLabel_append (label : String) (pre : List Element) (hd : Element)
    (rest : List Element) (hpre : ∀ e ∈ pre, label ∉ e.strings)
    (hh : label ∈ hd.strings) :
    siblingsAfterLabel label (pre ++ hd :: rest) = some rest := by
  induction pre with
  | nil => simp [siblingsAfterLabel, hh]
  | cons e pr ih =>
    rw [List.cons_append, siblingsAfterLabel, if_neg (hpre e (by simp))]
    exact ih fun x hx => hpre x (by simp [hx])

theorem firstNonEmptyText_eq_none (l : List Element) (h : ∀ e ∈ l, e.text = "") :
    firstNonEmptyText l = none := by
  induction l with
  | nil => rfl
  | cons e rest ih =>
    rw [firstNonEmptyText, if_neg (by simp [h e (by simp)])]
    exact ih fun x hx => h x (by simp [hx])

/-- C8: a missing label yields "Not specified" — for NHS, when no heading of
the right tag family has text containing the label ("Employer name", "Main
area", "Salary", "Job locations"); for HealthJobsUK, when no element carries
a text node exactly equal to the label, or when every sibling after the label
node has empty text — each mode for each of the four fields (employer,
specialty, salary, location). -/
theorem missing_field_fallback :
    (∀ doc, (∀ e ∈ doc, headingMatch ["h2", "h3"] "Employer name" e = false) →
      (parse_nhs_doc doc).employer = "Not specified") ∧
    (∀ doc, (∀ e ∈ doc, headingMatch ["h3", "h4"] "Main area" e = false) →
      (parse_nhs_doc doc).specialty = "Not specified") ∧
    (∀ doc, (∀ e ∈ doc, headingMatch ["h3", "h4"] "Salary" e = false) →
      (parse_nhs_doc doc).salary = "Not specified") ∧
    (∀ doc, (∀ e ∈ doc, headingMatch ["h2", "h3"] "Job locations" e = false) →
      (parse_nhs_doc doc).location = "Not specified") ∧
    (∀ doc, (∀ e ∈ doc, "Employer" ∉ e.strings) →
      (parse_hjuk_doc doc).employer = "Not specified") ∧
    (∀ doc, (∀ e ∈ doc, "Main area" ∉ e.strings) →
      (parse_hjuk_doc doc).specialty = "Not specified") ∧
    (∀ doc, (∀ e ∈ doc, "Salary" ∉ e.strings) →
      (parse_hjuk_doc doc).salary = "Not specified") ∧
    (∀ doc, (∀ e ∈ doc, "Town" ∉ e.strings) →
      (parse_hjuk_doc doc).location = "Not specified") ∧
    (∀ pre hd rest, (∀ e ∈ pre, "Employer" ∉ e.strings) → "Employer" ∈ hd.strings →
      (∀ e ∈ rest, e.text = "") →
      (parse_hjuk_doc (pre ++ hd :: rest)).employer = "Not specified") ∧
    (∀ pre hd rest, (∀ e ∈ pre, "Main area" ∉ e.strings) → "Main area" ∈ hd.strings →
      (∀ e ∈ rest, e.text = "") →
      (parse_hjuk_doc (pre ++ hd :: rest)).specialty = "Not specified") ∧
    (∀ pre hd rest, (∀ e ∈ pre, "Salary" ∉ e.strings) → "Salary" ∈ hd.strings →
      (∀ e ∈ rest, e.text = "") →
      (parse_hjuk_doc (pre ++ hd :: rest)).salary = "Not specified") ∧
    (∀ pre hd rest, (∀ e ∈ pre, "Town" ∉ e.strings) → "Town" ∈ hd.strings →
      (∀ e ∈ rest, e.text = "") →
      (parse_hjuk_doc (pre ++ hd :: rest)).location = "Not specified") := by
  refine ⟨fun doc h => ?_, fun doc h => ?_, fun doc h => ?_, fun doc h => ?_,
    fun doc h => ?_, fun doc h => ?_, fun doc h => ?_, fun doc h => ?_,
    fun pre hd rest hpre hh hrest => ?_, fun pre hd rest hpre hh hrest => ?_,
    fun pre hd rest hpre hh hrest => ?_, fun pre hd rest hpre hh hrest => ?_⟩
  · simp [parse_nhs_doc, nhsField, siblingsAfterFirst_eq_none _ _ h]
  · simp [parse_nhs_doc, nhsField, siblingsAfterFirst_eq_none _ _ h]
  · simp [parse_nhs_doc, nhsField, siblingsAfterFirst_eq_none _ _ h]
  · simp [parse_nhs_doc, nhsLocation, siblingsAfterFirst_eq_none _ _ h]
  · simp [parse_hjuk_doc, parse_trac_label, siblingsAfterLabel_eq_none _ _ h]
  · simp [parse_hjuk_doc, parse_trac_label, siblingsAfterLabel_eq_none _ _ h]
  · simp [parse_hjuk_doc, parse_trac_label, siblingsAfterLabel_eq_none _ _ h]
  · simp [parse_hjuk_doc, parse_trac_label, siblingsAfterLabel_eq_none _ _ h]
  · simp [parse_hjuk_doc, parse_trac_label, siblingsAfterLabel_append _ _ _ _ hpre hh,
      firstNonEmptyText_eq_none _ hrest]
  · simp [parse_hjuk_doc, parse_trac_label, siblingsAfterLabel_append _ _ _ _ hpre hh,
      firstNonEmptyText_eq_none _ hrest]
  · simp [parse_hjuk_doc, parse_trac_label, siblingsAfterLabel_append _ _ _ _ hpre hh,
      firstNonEmptyText_eq_none _ hrest]
  · simp [parse_hjuk_doc, parse_trac_label, siblingsAfterLabel_append _ _ _ _ hpre hh,
      firstNonEmptyText_eq_none _ hrest]

theorem missing_field_fallback_witness :
    (parse_nhs_doc [Element.mk "h2" "Overview" [], Element.mk "p" "Body" []]).salary
      = "Not specified" ∧
    (parse_hjuk_doc [Element.mk "div" "" ["Employer"], Element.mk "span" "" []]).employer
      = "Not specified" ∧
    (parse_hjuk_doc [Element.mk "div" "" ["Main area"], Element.mk "span" "" []]).specialty
      = "Not specified" ∧
    (parse_hjuk_doc [Element.mk "div" "" ["Salary"], Element.mk "span" "" []]).salary
      = "Not specified" ∧
    (parse_hjuk_doc [Element.mk "div" "" ["Town"], Element.mk "span" "" []]).location
      = "Not specified" :=
  ⟨(missing_field_fallback.2.2.1 [Element.mk "h2" "Overview" [], Element.mk "p" "Body" []]
      (by decide)),
   (missing_field_fallback.2.2.2.2.2.2.2.2.1 [] (Element.mk "div" "" ["Employer"])
      [Element.mk "span" "" []] (by decide) (by decide) (by decide)),
   (missing_field_fallback.2.2.2.2.2.2.2.2.2.1 [] (Element.mk "div" "" ["Main area"])
      [Element.mk "span" "" []] (by decide) (by decide) (by decide)),
   (missing_field_fallback.2.2.2.2.2.2.2.2.2.2.1 [] (Element.mk "div" "" ["Salary"])
      [Element.mk "span" "" []] (by decide) (by decide) (by decide)),
   (missing_field_fallback.2.2.2.2.2.2.2.2.2.2.2 [] (Element.mk "div" "" ["Town"])
      [Element.mk "span" "" []] (by decide) (by decide) (by decide))⟩

theorem vMatch_append (p q : List Char) (hp : vMatch p = none) :
    vMatch (p ++ '-' :: q) = vMatch ('-' :: q) := by
  induction p using vMatch.induct <;> simp_all [vMatch]
  rename_i c rest hne
  split
  · rename_i d rest2 hd
    rcases rest with _ | ⟨r1, rest'⟩
    · simp at hd
    · rcases rest' with _ | ⟨r2, rest''⟩
      · simp only [List.cons_append, List.nil_append, List.cons.injEq] at hd
        rcases hd with ⟨hr1, hd2, hq⟩
        rw [← hd2]
        simp
      · simp only [List.cons_append, List.cons.injEq] at hd
        have := hne d rest''
        rw [hd.1, hd.2.1] at this
        exact absurd rfl (this rfl)
  · rfl

theorem takeWhile_all_append (p : Char → Bool) (d r : List Char)
    (hd : ∀ c ∈ d, p c = true) (hr : r.takeWhile p = []) :
    (d ++ r).takeWhile p = d := by
  induction d with
  | nil => simpa using hr
  | cons c d' ih =>
    simp only [List.cons_append, List.takeWhile_cons, hd c (by simp)]
    simp only [ih fun x hx => hd x (by simp [hx]), if_true]

/-- C3 counterexample: on the href `/job/UK/x-v12-v34` the code's identifier
is `12` — the digits after the FIRST `-v` occurrence (`re.search` is
leftmost) — while the claim's "numeric version suffix" reading yields `34`
(that href does end in `-v34`), so the claim as stated fails. -/
theorem hjuk_id_counterexample :
    hjukJobId "/job/UK/x-v12-v34" = "12" ∧
    hjukJobIdSpec "/job/UK/x-v12-v34" = "34" ∧
    hjukJobId "/job/UK/x-v12-v34" ≠ hjukJobIdSpec "/job/UK/x-v12-v34" :=
  ⟨by decide, by decide, by decide⟩

/-- C3 amended: the identifier is the maximal digit run following the FIRST
occurrence of `-v` immediately followed by a digit (`re.search(r"-v(\d+)")`
is leftmost, not suffix-anchored); when no such occurrence exists anywhere in
the href, the identifier is the raw href. -/
theorem hjuk_id_first_occurrence (p d r : List Char) (hp : vMatch p = none)
    (hd0 : d ≠ []) (hdig : ∀ c ∈ d, c.isDigit = true)
    (hr : r.takeWhile Char.isDigit = []) :
    hjukJobId (String.mk (p ++ '-' :: 'v' :: (d ++ r))) = String.mk d ∧
    (∀ s : String, vMatch s.data = none → hjukJobId s = s) := by
  constructor
  · rcases d with _ | ⟨d0, d'⟩
    · exact absurd rfl hd0
    have h1 : vMatch (p ++ '-' :: ('v' :: (d0 :: d' ++ r))) =
        vMatch ('-' :: 'v' :: (d0 :: d' ++ r)) := vMatch_append p _ hp
    have h2 : vMatch ('-' :: 'v' :: (d0 :: d' ++ r)) =
        some (((d0 :: d') ++ r).takeWhile Char.isDigit) := by
      simp [vMatch, hdig d0 (by simp)]
    rw [hjukJobId]
    show (match vMatch (p ++ '-' :: 'v' :: (d0 :: d' ++ r)) with
      | some ds => String.mk ds
      | none => String.mk (p ++ '-' :: 'v' :: (d0 :: d' ++ r))) = String.mk (d0 :: d')
    rw [h1, h2, takeWhile_all_append Char.isDigit (d0 :: d') r hdig hr]
  · intro s hs
    rw [hjukJobId, hs]

theorem hjuk_id_first_occurrence_witness :
    hjukJobId (String.mk ("/job/UK/x".data ++ '-' :: 'v' :: ("12".data ++ "-v34".data))) =
      String.mk "12".data :=
  (hjuk_id_first_occurrence "/job/UK/x".data "12".data "-v34".data (by decide) (by decide)
    (by decide) (by decide)).1

theorem send_telegram_never_raises_witness :
    send_telegram ⟨none, some "42"⟩ (.raised "boom") = .skippedNoCreds ∧
    send_telegram ⟨some "t0", some "42"⟩ (.raised "boom") = .loggedException "boom" ∧
    send_telegram ⟨some "t0", some "42"⟩ (.response false "bad request") =
      .loggedError "bad request" ∧
    send_telegram ⟨some "t0", some "42"⟩ (.response true "ok") = .sent :=
  ⟨send_telegram_never_raises.1 ⟨none, some "42"⟩ (.raised "boom") (by decide),
   send_telegram_never_raises.2.1 ⟨some "t0", some "42"⟩ "boom" (by decide),
   send_telegram_never_raises.2.2.1 ⟨some "t0", some "42"⟩ "bad request" (by decide),
   send_telegram_never_raises.2.2.2 ⟨some "t0", some "42"⟩ "ok" (by decide)⟩

/-!
### Per-anchor step lemmas (NHS)
-/

theorem nhsStep_shape (env : NhsEnv) (st : Seen × List (String × JobRecord)) (a : Anchor) :
    nhsStep env st a = st ∨
    ∃ i rec, i ∉ st.1.nhs ∧ nhsAnchorId a = some i ∧
      nhsStep env st a = (⟨st.1.nhs ++ [i], st.1.healthjobsuk⟩, st.2 ++ [(nhsFullUrl a, rec)]) := by
  rw [nhsStep]
  split
  · split
    · exact Or.inl rfl
    · rename_i idc hidc
      split
      · exact Or.inl rfl
      · rename_i hmem
        split
        · split
          · exact Or.inl rfl
          · rename_i doc hdoc
            exact Or.inr ⟨String.mk idc, parse_nhs_doc doc, hmem,
              by simp [nhsAnchorId, hidc], rfl⟩
        · exact Or.inl rfl
  · exact Or.inl rfl

theorem nhsStep_mem_mono (env : NhsEnv) (st : Seen × List (String × JobRecord)) (a : Anchor)
    (i : String) (h : i ∈ st.1.nhs) : i ∈ (nhsStep env st a).1.nhs := by
  rcases nhsStep_shape env st a with heq | ⟨j, rec, hj, hid, heq⟩ <;> rw [heq]
  · exact h
  · simp [h]

theorem nhsStep_post (env : NhsEnv) (st : Seen × List (String × JobRecord)) (a : Anchor)
    (i : String) (hel : nhsEligible env a) (hid : nhsAnchorId a = some i) :
    i ∈ (nhsStep env st a).1.nhs := by
  obtain ⟨h1, h2, h3, h4⟩ := hel
  obtain ⟨idc, hidc⟩ := Option.isSome_iff_exists.1 h2
  obtain ⟨doc, hdoc⟩ := Option.isSome_iff_exists.1 h4
  have hi : i = String.mk idc := by
    rw [nhsAnchorId, hidc] at hid
    exact (Option.some_inj.1 hid).symm
  rw [nhsStep, if_pos h1, hidc]
  by_cases hmem : String.mk idc ∈ st.1.nhs
  · simp [hmem, hi]
  · simp [hmem, h3, hdoc, hi]

theorem nhsStep_stable (env : NhsEnv) (st : Seen × List (String × JobRecord)) (a : Anchor)
    (h : ∀ i, nhsEligible env a → nhsAnchorId a = some i → i ∈ st.1.nhs) :
    nhsStep env st a = st := by
  rw [nhsStep]
  split
  · rename_i h1
    split
    · rfl
    · rename_i idc hidc
      split
      · rfl
      · rename_i hmem
        split
        · rename_i h3
          split
          · rfl
          · rename_i doc hdoc
            exact absurd (h (String.mk idc)
              ⟨h1, by simp [hidc], h3, by simp [hdoc]⟩ (by simp [nhsAnchorId, hidc])) hmem
        · rfl
  · rfl

theorem nhsStep_detail_none (env : NhsEnv) (st : Seen × List (String × JobRecord)) (a : Anchor)
    (h : env.detail (nhsFullUrl a) = none) : nhsStep env st a = st := by
  rw [nhsStep]
  split
  · split
    · rfl
    · split
      · rfl
      · split
        · rw [h]
        · rfl
  · rfl

theorem nhsStep_nodup (env : NhsEnv) (st : Seen × List (String × JobRecord)) (a : Anchor)
    (h1 : st.1.nhs.Nodup) (h2 : st.1.healthjobsuk.Nodup) :
    (nhsStep env st a).1.nhs.Nodup ∧ (nhsStep env st a).1.healthjobsuk.Nodup := by
  rcases nhsStep_shape env st a with heq | ⟨j, rec, hj, hid, heq⟩ <;> rw [heq]
  · exact ⟨h1, h2⟩
  · exact ⟨by simp [List.nodup_append, h1, hj], h2⟩

theorem nhsStep_extend (env : NhsEnv) (st : Seen × List (String × JobRecord)) (a : Anchor) :
    (∃ t, (nhsStep env st a).1.nhs = st.1.nhs ++ t) ∧
    (nhsStep env st a).1.healthjobsuk = st.1.healthjobsuk := by
  rcases nhsStep_shape env st a with heq | ⟨j, rec, hj, hid, heq⟩ <;> rw [heq]
  · exact ⟨⟨[], by simp⟩, rfl⟩
  · exact ⟨⟨[j], rfl⟩, rfl⟩

/-!
### Fold lemmas over anchor lists and search URLs (NHS)
-/

theorem foldl_nhsStep_mem (env : NhsEnv) (l : List Anchor) :
    ∀ st, ∀ i, i ∈ st.1.nhs → i ∈ (l.foldl (nhsStep env) st).1.nhs := by
  induction l with
  | nil => exact fun st i h => h
  | cons a l' ih => exact fun st i h => ih _ i (nhsStep_mem_mono env st a i h)

theorem foldl_nhsStep_post (env : NhsEnv) (l : List Anchor) :
    ∀ st, ∀ a ∈ l, ∀ i, nhsEligible env a → nhsAnchorId a = some i →
      i ∈ (l.foldl (nhsStep env) st).1.nhs := by
  induction l with
  | nil => intro st a ha; exact absurd ha (List.not_mem_nil a)
  | cons b l' ih =>
    intro st a ha i hel hid
    rcases List.mem_cons.1 ha with rfl | ha'
    · exact foldl_nhsStep_mem env l' _ i (nhsStep_post env st a i hel hid)
    · exact ih _ a ha' i hel hid

theorem foldl_nhsStep_stable (env : NhsEnv) (l : List Anchor)
    (st : Seen × List (String × JobRecord))
    (h : ∀ a ∈ l, ∀ i, nhsEligible env a → nhsAnchorId a = some i → i ∈ st.1.nhs) :
    l.foldl (nhsStep env) st = st := by
  induction l with
  | nil => rfl
  | cons b l' ih =>
    rw [List.foldl_cons,
      nhsStep_stable env st b (fun i hel hid => h b (by simp) i hel hid)]
    exact ih fun a ha i hel hid => h a (by simp [ha]) i hel hid

theorem foldl_nhsStep_extend (env : NhsEnv) (l : List Anchor) :
    ∀ st, (∃ t, (l.foldl (nhsStep env) st).1.nhs = st.1.nhs ++ t) ∧
      (l.foldl (nhsStep env) st).1.healthjobsuk = st.1.healthjobsuk := by
  induction l with
  | nil => exact fun st => ⟨⟨[], by simp⟩, rfl⟩
  | cons a l' ih =>
    intro st
    obtain ⟨⟨t, ht⟩, hh⟩ := ih (nhsStep env st a)
    obtain ⟨⟨t0, ht0⟩, hh0⟩ := nhsStep_extend env st a
    exact ⟨⟨t0 ++ t, by rw [List.foldl_cons, ht, ht0, List.append_assoc]⟩,
      by rw [List.foldl_cons, hh, hh0]⟩

theorem foldl_nhsStep_nodup (env : NhsEnv) (l : List Anchor) :
    ∀ st, st.1.nhs.Nodup → st.1.healthjobsuk.Nodup →
      (l.foldl (nhsStep env) st).1.nhs.Nodup ∧
      (l.foldl (nhsStep env) st).1.healthjobsuk.Nodup := by
  induction l with
  | nil => exact fun st h1 h2 => ⟨h1, h2⟩
  | cons a l' ih =>
    intro st h1 h2
    obtain ⟨g1, g2⟩ := nhsStep_nodup env st a h1 h2
    exact ih _ g1 g2

theorem nhsUrlStep_mem (env : NhsEnv) (st : Seen × List (String × JobRecord)) (url : String)
    (i : String) (h : i ∈ st.1.nhs) : i ∈ (nhsUrlStep env st url).1.nhs := by
  rw [nhsUrlStep]
  split
  · exact h
  · exact foldl_nhsStep_mem env _ st i h

theorem nhsUrlStep_post (env : NhsEnv) (st : Seen × List (String × JobRecord)) (url : String)
    (anchors : List Anchor) (a : Anchor) (i : String) (hl : env.listing url = .ok anchors)
    (ha : a ∈ anchors) (hel : nhsEligible env a) (hid : nhsAnchorId a = some i) :
    i ∈ (nhsUrlStep env st url).1.nhs := by
  rw [nhsUrlStep, hl]
  exact foldl_nhsStep_post env anchors st a ha i hel hid

theorem nhsUrlStep_stable (env : NhsEnv) (st : Seen × List (String × JobRecord)) (url : String)
    (h : ∀ anchors, env.listing url = .ok anchors →
      ∀ a ∈ anchors, ∀ i, nhsEligible env a → nhsAnchorId a = some i → i ∈ st.1.nhs) :
    nhsUrlStep env st url = st := by
  rw [nhsUrlStep]
  split
  · rfl
  · rename_i anchors hl
    exact foldl_nhsStep_stable env anchors st (h anchors hl)

theorem nhsUrlStep_extend (env : NhsEnv) (st : Seen × List (String × JobRecord)) (url : String) :
    (∃ t, (nhsUrlStep env st url).1.nhs = st.1.nhs ++ t) ∧
    (nhsUrlStep env st url).1.healthjobsuk = st.1.healthjobsuk := by
  rw [nhsUrlStep]
  split
  · exact ⟨⟨[], by simp⟩, rfl⟩
  · exact foldl_nhsStep_extend env _ st

theorem nhsUrlStep_nodup (env : NhsEnv) (st : Seen × List (String × JobRecord)) (url : String)
    (h1 : st.1.nhs.Nodup) (h2 : st.1.healthjobsuk.Nodup) :
    (nhsUrlStep env st url).1.nhs.Nodup ∧ (nhsUrlStep env st url).1.healthjobsuk.Nodup := by
  rw [nhsUrlStep]
  split
  · exact ⟨h1, h2⟩
  · exact foldl_nhsStep_nodup env _ st h1 h2

theorem foldl_nhsUrl_mem (env : NhsEnv) (urls : List String) :
    ∀ st, ∀ i, i ∈ st.1.nhs → i ∈ (urls.foldl (nhsUrlStep env) st).1.nhs := by
  induction urls with
  | nil => exact fun st i h => h
  | cons u urls' ih => exact fun st i h => ih _ i (nhsUrlStep_mem env st u i h)

theorem foldl_nhsUrl_post (env : NhsEnv) (urls : List String) :
    ∀ st, ∀ u ∈ urls, ∀ anchors, env.listing u = .ok anchors →
      ∀ a ∈ anchors, ∀ i, nhsEligible env a → nhsAnchorId a = some i →
      i ∈ (urls.foldl (nhsUrlStep env) st).1.nhs := by
  induction urls with
  | nil => intro st u hu; exact absurd hu (List.not_mem_nil u)
  | cons v urls' ih =>
    intro st u hu anchors hl a ha i hel hid
    rcases List.mem_cons.1 hu with rfl | hu'
    · exact foldl_nhsUrl_mem env urls' _ i (nhsUrlStep_post env st u anchors a i hl ha hel hid)
    · exact ih _ u hu' anchors hl a ha i hel hid

theorem foldl_nhsUrl_stable (env : NhsEnv) (urls : List String)
    (st : Seen × List (String × JobRecord))
    (h : ∀ u ∈ urls, ∀ anchors, env.listing u = .ok anchors →
      ∀ a ∈ anchors, ∀ i, nhsEligible env a → nhsAnchorId a = some i → i ∈ st.1.nhs) :
    urls.foldl (nhsUrlStep env) st = st := by
  induction urls with
  | nil => rfl
  | cons v urls' ih =>
    rw [List.foldl_cons, nhsUrlStep_stable env st v (fun anchors hl a ha i hel hid =>
      h v (by simp) anchors hl a ha i hel hid)]
    exact ih fun u hu anchors hl a ha i hel hid =>
      h u (by simp [hu]) anchors hl a ha i hel hid

theorem foldl_nhsUrl_extend (env : NhsEnv) (urls : List String) :
    ∀ st, (∃ t, (urls.foldl (nhsUrlStep env) st).1.nhs = st.1.nhs ++ t) ∧
      (urls.foldl (nhsUrlStep env) st).1.healthjobsuk = st.1.healthjobsuk := by
  induction urls with
  | nil => exact fun st => ⟨⟨[], by simp⟩, rfl⟩
  | cons u urls' ih =>
    intro st
    obtain ⟨⟨t, ht⟩, hh⟩ := ih (nhsUrlStep env st u)
    obtain ⟨⟨t0, ht0⟩, hh0⟩ := nhsUrlStep_extend env st u
    exact ⟨⟨t0 ++ t, by rw [List.foldl_cons, ht, ht0, List.append_assoc]⟩,
      by rw [List.foldl_cons, hh, hh0]⟩

theorem foldl_nhsUrl_nodup (env : NhsEnv) (urls : List String) :
    ∀ st, st.1.nhs.Nodup → st.1.healthjobsuk.Nodup →
      (urls.foldl (nhsUrlStep env) st).1.nhs.Nodup ∧
      (urls.foldl (nhsUrlStep env) st).1.healthjobsuk.Nodup := by
  induction urls with
  | nil => exact fun st h1 h2 => ⟨h1, h2⟩
  | cons u urls' ih =>
    intro st h1 h2
    obtain ⟨g1, g2⟩ := nhsUrlStep_nodup env st u h1 h2
    exact ih _ g1 g2

/-!
### Per-anchor step and fold lemmas (HealthJobsUK)
-/

theorem hjukStep_shape (env : HjukEnv) (st : Seen × List (String × JobRecord)) (a : Anchor) :
    hjukStep env st a = st ∨
    ∃ rec, hjukJobId a.href ∉ st.1.healthjobsuk ∧
      hjukStep env st a = (⟨st.1.nhs, st.1.healthjobsuk ++ [hjukJobId a.href]⟩,
        st.2 ++ [(hjukSite ++ a.href, rec)]) := by
  rw [hjukStep]
  split
  · split
    · split
      · exact Or.inl rfl
      · rename_i hmem
        split
        · exact Or.inl rfl
        · rename_i doc hdoc
          exact Or.inr ⟨parse_hjuk_doc doc, hmem, rfl⟩
    · exact Or.inl rfl
  · exact Or.inl rfl

theorem hjukStep_mem_mono (env : HjukEnv) (st : Seen × List (String × JobRecord)) (a : Anchor)
    (i : String) (h : i ∈ st.1.healthjobsuk) : i ∈ (hjukStep env st a).1.healthjobsuk := by
  rcases hjukStep_shape env st a with heq | ⟨rec, hj, heq⟩ <;> rw [heq]
  · exact h
  · simp [h]

theorem hjukStep_post (env : HjukEnv) (st : Seen × List (String × JobRecord)) (a : Anchor)
    (hel : hjukEligible env a) : hjukJobId a.href ∈ (hjukStep env st a).1.healthjobsuk := by
  obtain ⟨h1, h2, h3⟩ := hel
  obtain ⟨doc, hdoc⟩ := Option.isSome_iff_exists.1 h3
  rw [hjukStep, if_pos h1, if_pos h2]
  by_cases hmem : hjukJobId a.href ∈ st.1.healthjobsuk
  · simp [hmem]
  · simp [hmem, hdoc]

theorem hjukStep_stable (env : HjukEnv) (st : Seen × List (String × JobRecord)) (a : Anchor)
    (h : hjukEligible env a → hjukJobId a.href ∈ st.1.healthjobsuk) :
    hjukStep env st a = st := by
  rw [hjukStep]
  split
  · rename_i h1
    split
    · rename_i h2
      split
      · rfl
      · rename_i hmem
        split
        · rfl
        · rename_i doc hdoc
          exact absurd (h ⟨h1, h2, by simp [hdoc]⟩) hmem
    · rfl
  · rfl

theorem hjukStep_detail_none (env : HjukEnv) (st : Seen × List (String × JobRecord)) (a : Anchor)
    (h : env.detail (hjukSite ++ a.href) = none) : hjukStep env st a = st := by
  rw [hjukStep]
  split
  · split
    · split
      · rfl
      · rw [h]
    · rfl
  · rfl

theorem hjukStep_nodup (env : HjukEnv) (st : Seen × List (String × JobRecord)) (a : Anchor)
    (h1 : st.1.nhs.Nodup) (h2 : st.1.healthjobsuk.Nodup) :
    (hjukStep env st a).1.nhs.Nodup ∧ (hjukStep env st a).1.healthjobsuk.Nodup := by
  rcases hjukStep_shape env st a with heq | ⟨rec, hj, heq⟩ <;> rw [heq]
  · exact ⟨h1, h2⟩
  · exact ⟨h1, by simp [List.nodup_append, h2, hj]⟩

theorem hjukStep_extend (env : HjukEnv) (st : Seen × List (String × JobRecord)) (a : Anchor) :
    (∃ t, (hjukStep env st a).1.healthjobsuk = st.1.healthjobsuk ++ t) ∧
    (hjukStep env st a).1.nhs = st.1.nhs := by
  rcases hjukStep_shape env st a with heq | ⟨rec, hj, heq⟩ <;> rw [heq]
  · exact ⟨⟨[], by simp⟩, rfl⟩
  · exact ⟨⟨[hjukJobId a.href], rfl⟩, rfl⟩

theorem foldl_hjukStep_mem (env : HjukEnv) (l : List Anchor) :
    ∀ st, ∀ i, i ∈ st.1.healthjobsuk → i ∈ (l.foldl (hjukStep env) st).1.healthjobsuk := by
  induction l with
  | nil => exact fun st i h => h
  | cons a l' ih => exact fun st i h => ih _ i (hjukStep_mem_mono env st a i h)

theorem foldl_hjukStep_post (env : HjukEnv) (l : List Anchor) :
    ∀ st, ∀ a ∈ l, hjukEligible env a →
      hjukJobId a.href ∈ (l.foldl (hjukStep env) st).1.healthjobsuk := by
  induction l with
  | nil => intro st a ha; exact absurd ha (List.not_mem_nil a)
  | cons b l' ih =>
    intro st a ha hel
    rcases List.mem_cons.1 ha with rfl | ha'
    · exact foldl_hjukStep_mem env l' _ _ (hjukStep_post env st a hel)
    · exact ih _ a ha' hel

theorem foldl_hjukStep_stable (env : HjukEnv) (l : List Anchor)
    (st : Seen × List (String × JobRecord))
    (h : ∀ a ∈ l, hjukEligible env a → hjukJobId a.href ∈ st.1.healthjobsuk) :
    l.foldl (hjukStep env) st = st := by
  induction l with
  | nil => rfl
  | cons b l' ih =>
    rw [List.foldl_cons, hjukStep_stable env st b (fun hel => h b (by simp) hel)]
    exact ih fun a ha hel => h a (by simp [ha]) hel

theorem foldl_hjukStep_extend (env : HjukEnv) (l : List Anchor) :
    ∀ st, (∃ t, (l.foldl (hjukStep env) st).1.healthjobsuk = st.1.healthjobsuk ++ t) ∧
      (l.foldl (hjukStep env) st).1.nhs = st.1.nhs := by
  induction l with
  | nil => exact fun st => ⟨⟨[], by simp⟩, rfl⟩
  | cons a l' ih =>
    intro st
    obtain ⟨⟨t, ht⟩, hh⟩ := ih (hjukStep env st a)
    obtain ⟨⟨t0, ht0⟩, hh0⟩ := hjukStep_extend env st a
    exact ⟨⟨t0 ++ t, by rw [List.foldl_cons, ht, ht0, List.append_assoc]⟩,
      by rw [List.foldl_cons, hh, hh0]⟩

theorem foldl_hjukStep_nodup (env : HjukEnv) (l : List Anchor) :
    ∀ st, st.1.nhs.Nodup → st.1.healthjobsuk.Nodup →
      (l.foldl (hjukStep env) st).1.nhs.Nodup ∧
      (l.foldl (hjukStep env) st).1.healthjobsuk.Nodup := by
  induction l with
  | nil => exact fun st h1 h2 => ⟨h1, h2⟩
  | cons a l' ih =>
    intro st h1 h2
    obtain ⟨g1, g2⟩ := hjukStep_nodup env st a h1 h2
    exact ih _ g1 g2

/-!
### Run-level lemmas and the dedup claims
-/

theorem nhs_run_covers (env : NhsEnv) (seen : Seen) :
    ∀ u ∈ NHS_SEARCH_URLS, ∀ anchors, env.listing u = .ok anchors →
    ∀ a ∈ anchors, ∀ i, nhsEligible env a → nhsAnchorId a = some i →
    i ∈ (fetch_nhs_new_jobs env seen).1.nhs := by
  intro u hu anchors hl a ha i hel hid
  exact foldl_nhsUrl_post env NHS_SEARCH_URLS (seen, []) u hu anchors hl a ha i hel hid

theorem hjuk_run_covers (env : HjukEnv) (seen : Seen) :
    ∀ anchors, env.listing = .ok anchors → ∀ a ∈ anchors, hjukEligible env a →
    hjukJobId a.href ∈ (fetch_healthjobsuk_new_jobs env seen).1.healthjobsuk := by
  intro anchors hl a ha hel
  simp only [fetch_healthjobsuk_new_jobs, hl]
  exact foldl_hjukStep_post env anchors (seen, []) a ha hel

/-- C1: with the listing and detail responses fixed, a second run of either
extractor starting from the seen mapping produced by the first run returns no
new jobs: every identifier admitted by the first run is in the seen-set when
the second run tests it. -/
theorem dedup_idempotent (nenv : NhsEnv) (henv : HjukEnv) (seen : Seen) :
    (fetch_nhs_new_jobs nenv (fetch_nhs_new_jobs nenv seen).1).2 = [] ∧
    (fetch_healthjobsuk_new_jobs henv (fetch_healthjobsuk_new_jobs henv seen).1).2 = [] := by
  constructor
  · have hst : NHS_SEARCH_URLS.foldl (nhsUrlStep nenv) ((fetch_nhs_new_jobs nenv seen).1, []) =
        ((fetch_nhs_new_jobs nenv seen).1, []) :=
      foldl_nhsUrl_stable nenv NHS_SEARCH_URLS _ fun u hu anchors hl a ha i hel hid =>
        nhs_run_covers nenv seen u hu anchors hl a ha i hel hid
    show (NHS_SEARCH_URLS.foldl (nhsUrlStep nenv) ((fetch_nhs_new_jobs nenv seen).1, [])).2 = []
    rw [hst]
  · cases hl : henv.listing with
    | error e => simp only [fetch_healthjobsuk_new_jobs, hl]
    | ok anchors =>
      have hst : anchors.foldl (hjukStep henv)
          ((fetch_healthjobsuk_new_jobs henv seen).1, []) =
          ((fetch_healthjobsuk_new_jobs henv seen).1, []) :=
        foldl_hjukStep_stable henv anchors _ fun a ha hel =>
          hjuk_run_covers henv seen anchors hl a ha hel
      simp only [fetch_healthjobsuk_new_jobs, hl] at hst ⊢
      rw [hst]

/-- C2: starting from duplicate-free per-source identifier lists, each
extractor leaves both lists duplicate-free, only appends to its own source's
list (the original is a prefix of the result), and leaves the other source's
list untouched. -/
theorem seen_set_append_only (nenv : NhsEnv) (henv : HjukEnv) (seen : Seen)
    (h1 : seen.nhs.Nodup) (h2 : seen.healthjobsuk.Nodup) :
    ((fetch_nhs_new_jobs nenv seen).1.nhs.Nodup ∧
      (fetch_nhs_new_jobs nenv seen).1.healthjobsuk.Nodup ∧
      (∃ t, (fetch_nhs_new_jobs nenv seen).1.nhs = seen.nhs ++ t) ∧
      (fetch_nhs_new_jobs nenv seen).1.healthjobsuk = seen.healthjobsuk) ∧
    ((fetch_healthjobsuk_new_jobs henv seen).1.nhs.Nodup ∧
      (fetch_healthjobsuk_new_jobs henv seen).1.healthjobsuk.Nodup ∧
      (∃ t, (fetch_healthjobsuk_new_jobs henv seen).1.healthjobsuk = seen.healthjobsuk ++ t) ∧
      (fetch_healthjobsuk_new_jobs henv seen).1.nhs = seen.nhs) := by
  constructor
  · obtain ⟨hn1, hn2⟩ := foldl_nhsUrl_nodup nenv NHS_SEARCH_URLS (seen, []) h1 h2
    obtain ⟨⟨t, ht⟩, hh⟩ := foldl_nhsUrl_extend nenv NHS_SEARCH_URLS (seen, [])
    exact ⟨hn1, hn2, ⟨t, ht⟩, hh⟩
  · cases hl : henv.listing with
    | error e =>
      simp only [fetch_healthjobsuk_new_jobs, hl]
      exact ⟨h1, h2, ⟨[], by simp⟩, trivial⟩
    | ok anchors =>
      simp only [fetch_healthjobsuk_new_jobs, hl]
      obtain ⟨g1, g2⟩ := foldl_hjukStep_nodup henv anchors (seen, []) h1 h2
      obtain ⟨⟨t, ht⟩, hh⟩ := foldl_hjukStep_extend henv anchors (seen, [])
      exact ⟨g1, g2, ⟨t, ht⟩, hh⟩

theorem seen_set_append_only_witness :
    (fetch_nhs_new_jobs envNhsTest ⟨["A"], ["B"]⟩).1.nhs.Nodup ∧
    (fetch_healthjobsuk_new_jobs envHjukTest ⟨["A"], ["B"]⟩).1.healthjobsuk.Nodup :=
  ⟨(seen_set_append_only envNhsTest envHjukTest ⟨["A"], ["B"]⟩ (by decide) (by decide)).1.1,
   (seen_set_append_only envNhsTest envHjukTest ⟨["A"], ["B"]⟩
      (by decide) (by decide)).2.2.1⟩

theorem foldl_fixed {α β : Type} (f : β → α → β) (st : β) (l : List α)
    (h : ∀ a ∈ l, f st a = st) : l.foldl f st = st := by
  induction l with
  | nil => rfl
  | cons a l' ih =>
    rw [List.foldl_cons, h a (by simp)]
    exact ih fun b hb => h b (by simp [hb])

/-- C5: a candidate whose detail fetch fails contributes nothing — the
per-anchor step returns the state unchanged (no job appended, no identifier
marked seen), and a run in which every detail fetch fails returns the
seen-set untouched with no new jobs. -/
theorem detail_fetch_failure_atomic :
    (∀ env st a, env.detail (nhsFullUrl a) = none → nhsStep env st a = st) ∧
    (∀ env st a, env.detail (hjukSite ++ a.href) = none → hjukStep env st a = st) ∧
    (∀ (env : NhsEnv) (seen : Seen), (∀ u, env.detail u = none) →
      fetch_nhs_new_jobs env seen = (seen, [])) ∧
    (∀ (env : HjukEnv) (seen : Seen), (∀ u, env.detail u = none) →
      fetch_healthjobsuk_new_jobs env seen = (seen, [])) := by
  refine ⟨nhsStep_detail_none, hjukStep_detail_none, fun env seen h => ?_,
    fun env seen h => ?_⟩
  · show NHS_SEARCH_URLS.foldl (nhsUrlStep env) (seen, []) = (seen, [])
    refine foldl_fixed _ _ _ fun u hu => ?_
    rw [nhsUrlStep]
    split
    · rfl
    · exact foldl_fixed _ _ _ fun a ha => nhsStep_detail_none env (seen, []) a (h _)
  · rw [fetch_healthjobsuk_new_jobs]
    split
    · rfl
    · exact foldl_fixed _ _ _ fun a ha => hjukStep_detail_none env (seen, []) a (h _)

theorem detail_fetch_failure_atomic_witness :
    nhsStep envNhsDown (⟨["A"], ["B"]⟩, []) anchorX1 = (⟨["A"], ["B"]⟩, []) ∧
    hjukStep envHjukDown (⟨["A"], ["B"]⟩, []) anchorV55 = (⟨["A"], ["B"]⟩, []) ∧
    fetch_nhs_new_jobs envNhsDown ⟨["A"], ["B"]⟩ = (⟨["A"], ["B"]⟩, []) ∧
    fetch_healthjobsuk_new_jobs envHjukDown ⟨["A"], ["B"]⟩ = (⟨["A"], ["B"]⟩, []) :=
  ⟨detail_fetch_failure_atomic.1 envNhsDown _ anchorX1 rfl,
   detail_fetch_failure_atomic.2.1 envHjukDown _ anchorV55 rfl,
   detail_fetch_failure_atomic.2.2.1 envNhsDown ⟨["A"], ["B"]⟩ (fun _ => rfl),
   detail_fetch_failure_atomic.2.2.2 envHjukDown ⟨["A"], ["B"]⟩ (fun _ => rfl)⟩

/-!
### Sanity checks on concrete fixtures
-/

example : (fetch_nhs_new_jobs envNhsTest ⟨[], []⟩).1.nhs = ["X1"] := by decide
example : (fetch_nhs_new_jobs envNhsTest ⟨[], []⟩).2.length = 1 := by decide
example : (fetch_nhs_new_jobs envNhsTest ⟨["X1"], []⟩).2 = [] := by decide
example : (fetch_healthjobsuk_new_jobs envHjukTest ⟨[], []⟩).1.healthjobsuk = ["55"] := by
  decide
example : (fetch_healthjobsuk_new_jobs envHjukTest ⟨[], []⟩).2.length = 1 := by decide
example : (fetch_healthjobsuk_new_jobs envHjukTest ⟨[], ["55"]⟩).2 = [] := by decide
